import Mathlib

/-!
# Verification of the text-adventure authoring/playback program (src/main.py)

This file gives a shallow embedding of the program's core logic and proves or
refutes the frozen claims about it.

Modelling conventions:
* Interactive `input()` calls are modelled by an explicit list of input strings
  consumed in order; reaching the end of the list models `EOFError`.
* Python `int` is modelled by `Int`; Python's `int(str)` parser is modelled by
  `parsePyInt` (ASCII digits, optional sign, surrounding whitespace, single
  underscores between digits, as the CPython literal grammar accepts).
* Exceptions are modelled by explicit failure results.  Where an exception
  interrupts in-place mutation of a `Node`, the function returns the partially
  mutated node together with a `false` success flag, matching the object state
  Python leaves behind when the exception propagates.
* The recursive authoring procedure `_create_node` takes a fuel parameter for
  termination; fuel exhaustion is reported as failure, so any run that reports
  success is a faithful complete run of the Python recursion.
-/

/-- The story node of `main.py` (`@dataclass class Node`): narrative text, the
two choice labels, the two score deltas, and the two optional children, in the
source's field order. -/
inductive Node where
  | mk (story_text : String) (option1_text : String) (option2_text : String)
       (option1_score : Int) (option2_score : Int)
       (option1 : Option Node) (option2 : Option Node)

/-- Field accessor for `Node.story_text`. -/
def Node.story_text : Node → String
  | .mk t _ _ _ _ _ _ => t

/-- Field accessor for `Node.option1_text`. -/
def Node.option1_text : Node → String
  | .mk _ a _ _ _ _ _ => a

/-- Field accessor for `Node.option2_text`. -/
def Node.option2_text : Node → String
  | .mk _ _ b _ _ _ _ => b

/-- Field accessor for `Node.option1_score`. -/
def Node.option1_score : Node → Int
  | .mk _ _ _ x _ _ _ => x

/-- Field accessor for `Node.option2_score`. -/
def Node.option2_score : Node → Int
  | .mk _ _ _ _ y _ _ => y

/-- Field accessor for `Node.option1`. -/
def Node.option1 : Node → Option Node
  | .mk _ _ _ _ _ c _ => c

/-- Field accessor for `Node.option2`. -/
def Node.option2 : Node → Option Node
  | .mk _ _ _ _ _ _ d => d

/-- A fresh node as built by `Node(text)` in the source: default empty labels,
zero scores, no children. -/
def freshNode (text : String) : Node :=
  Node.mk text "" "" 0 0 none none

/-- The play loop's ending test (`if not current_node.option1 and not
current_node.option2`): a node is a leaf iff both children are absent. -/
def isLeaf (n : Node) : Bool :=
  n.option1.isNone && n.option2.isNone

/-- The leaf invariant of the spec: every node has either both children absent
or both children present, recursively. -/
def invariantB : Node → Bool
  | .mk _ _ _ _ _ none none => true
  | .mk _ _ _ _ _ (some a) (some b) => invariantB a && invariantB b
  | _ => false

/-- Python's default `str.strip()` whitespace test, on the ASCII range the
program's prompts use. -/
def isPySpace (c : Char) : Bool :=
  c = ' ' || c = '\t' || c = '\n' || c = '\r' || c = '\x0b' || c = '\x0c'

/-- Python's `str.strip()`: drop leading and trailing whitespace. -/
def pyStripChars (cs : List Char) : List Char :=
  ((cs.dropWhile isPySpace).reverse.dropWhile isPySpace).reverse

/-- ASCII lower-casing of one character, the case `str.lower()` needs for the
`y`/`n` prompt. -/
def pyLowerChar (c : Char) : Char :=
  if 'A' ≤ c && c ≤ 'Z' then Char.ofNat (c.toNat + 32) else c

/-- Python's `str.lower()` on ASCII input. -/
def pyLower (s : String) : String :=
  String.mk (s.data.map pyLowerChar)

/-- Code-point lexicographic `<` on character lists — how Python compares
`str` values. -/
def lexLtChars : List Char → List Char → Bool
  | [], [] => false
  | [], _ :: _ => true
  | _ :: _, [] => false
  | a :: as, b :: bs => if a < b then true else if b < a then false else lexLtChars as bs

/-- Python's `<` on strings. -/
def pyStrLt (s t : String) : Bool := lexLtChars s.data t.data

/-- Python's `<=` on strings. -/
def pyStrLe (s t : String) : Bool := !pyStrLt t s

/-- Value of an ASCII digit character. -/
def digitVal (c : Char) : Nat := c.toNat - 48

/-- Digit-sequence tail of CPython's integer literal parser: digits with single
underscores allowed between digits. -/
def parseDigitsGo : Nat → List Char → Option Nat
  | acc, [] => some acc
  | acc, '_' :: c :: cs =>
      if c.isDigit then parseDigitsGo (10 * acc + digitVal c) cs else none
  | acc, c :: cs =>
      if c.isDigit then parseDigitsGo (10 * acc + digitVal c) cs else none

/-- Digit sequence that must start with a digit (no leading underscore). -/
def parseDigitsStart : List Char → Option Nat
  | [] => none
  | c :: cs => if c.isDigit then parseDigitsGo (digitVal c) cs else none

/-- Model of Python's `int(s)` on ASCII input: strip surrounding whitespace,
optional sign, then digits with optional single underscores between them;
`none` models the `ValueError` the source lets propagate. -/
def parsePyInt (s : String) : Option Int :=
  match pyStripChars s.data with
  | '+' :: cs => (parseDigitsStart cs).map Int.ofNat
  | '-' :: cs => (parseDigitsStart cs).map (fun n => -(Int.ofNat n))
  | cs => (parseDigitsStart cs).map Int.ofNat

/-- `AdventureGame._create_node` of the source, with the interactive inputs as
an explicit list.  Returns the node as left behind (the source mutates it in
place), the remaining inputs, and whether the call completed without raising.
Failure cases (`false` flag) are end-of-input at any prompt and `int()` parse
errors on the two score prompts; each returns exactly the fields the source had
assigned before the exception. -/
def _create_node : Nat → Node → List String → Node × List String × Bool
  | 0, node, inputs => (node, inputs, false)
  | fuel + 1, Node.mk st t1 t2 s1 s2 c1 c2, inputs =>
    match inputs with
    | [] => (Node.mk st t1 t2 s1 s2 c1 c2, [], false)
    | ans :: rest =>
      if pyLower ans = "y" then (Node.mk st t1 t2 s1 s2 c1 c2, rest, true)
      else
        match rest with
        | [] => (Node.mk st t1 t2 s1 s2 c1 c2, [], false)
        | [o1t] => (Node.mk st o1t t2 s1 s2 c1 c2, [], false)
        | o1t :: sc1 :: rest2 =>
          match parsePyInt sc1 with
          | none => (Node.mk st o1t t2 s1 s2 c1 c2, rest2, false)
          | some k1 =>
            match rest2 with
            | [] => (Node.mk st o1t t2 k1 s2 c1 c2, [], false)
            | r1 :: rest3 =>
              match rest3 with
              | [] => (Node.mk st o1t t2 k1 s2 (some (freshNode r1)) c2, [], false)
              | [o2t] => (Node.mk st o1t o2t k1 s2 (some (freshNode r1)) c2, [], false)
              | o2t :: sc2 :: rest5 =>
                match parsePyInt sc2 with
                | none => (Node.mk st o1t o2t k1 s2 (some (freshNode r1)) c2, rest5, false)
                | some k2 =>
                  match rest5 with
                  | [] => (Node.mk st o1t o2t k1 k2 (some (freshNode r1)) c2, [], false)
                  | r2 :: rest6 =>
                    match _create_node fuel (freshNode r1) rest6 with
                    | (c1n, rem1, true) =>
                      match _create_node fuel (freshNode r2) rem1 with
                      | (c2n, rem2, ok2) =>
                        (Node.mk st o1t o2t k1 k2 (some c1n) (some c2n), rem2, ok2)
                    | (c1n, rem1, false) =>
                      (Node.mk st o1t o2t k1 k2 (some c1n) (some (freshNode r2)), rem1, false)

/-- `AdventureGame.create_game` of the source: read the initial scenario text,
allocate the root, and run `_create_node` on it.  `none` for the root models
end of input before the root is allocated. -/
def create_game (fuel : Nat) (inputs : List String) : Option Node × List String × Bool :=
  match inputs with
  | [] => (none, [], false)
  | t :: rest =>
    match _create_node fuel (freshNode t) rest with
    | (n, rem, ok) => (some n, rem, ok)

/-- JSON values, the data model of Python's `json` module restricted to what
the score file can hold (floats are not produced by this program and are left
out of the model).  Booleans are separate constructors but note that Python's
`isinstance(x, int)` is true for booleans, which the embedding reproduces. -/
inductive JValue where
  | jnull
  | jbool (b : Bool)
  | jint (n : Int)
  | jstr (s : String)
  | jarr (xs : List JValue)
  | jobj (fields : List (String × JValue))

/-- The score entry dict built at the end of `play_game`, in the source's key
order; the timestamp string is a parameter (the wall clock is external). -/
def mkScoreEntry (name : String) (total : Int) (now : String) : JValue :=
  .jobj [("player_name", .jstr name), ("score", .jint total), ("date", .jstr now)]

/-- One step outcome of the play loop's accumulated state: the final total,
the `choices_made` list as (choice label, outcome text) pairs, and how many
"Invalid choice!" messages were printed.  `none` models a crash: `EOFError`
at the choice prompt, or the `AttributeError` raised when the chosen child is
absent (the source reads `.story_text` off it). -/
def playLoop : List String → Node → Int → List (String × String) → Nat →
    Option (Int × List (String × String) × Nat)
  | [], n, total, hist, k =>
      if isLeaf n then some (total, hist, k) else none
  | c :: rest, n, total, hist, k =>
      if isLeaf n then some (total, hist, k)
      else if c = "1" then
        match n.option1 with
        | some child =>
            playLoop rest child (total + n.option1_score)
              (hist ++ [(n.option1_text, child.story_text)]) k
        | none => none
      else if c = "2" then
        match n.option2 with
        | some child =>
            playLoop rest child (total + n.option2_score)
              (hist ++ [(n.option2_text, child.story_text)]) k
        | none => none
      else playLoop rest n total hist (k + 1)

/-- The name prompt loop of `play_game`: keep reading until a string that is
non-blank after stripping; the raw (unstripped) string is kept.  `none` models
`EOFError` while still prompting. -/
def findName : List String → Option (String × List String)
  | [] => none
  | s :: rest => if (pyStripChars s.data).isEmpty then findName rest else some (s, rest)

/-- Result of one `play_game` call. -/
inductive PlayOutcome where
  | noGame
  | aborted
  | completed (total : Int) (history : List (String × String)) (invalidMsgs : Nat)

/-- `AdventureGame.play_game` of the source: bail out if no root, read a
non-blank player name, run the walk loop, then append the score entry to the
in-memory list and save.  Returns the outcome, the new in-memory score list,
and whether `save_high_scores` was invoked. -/
def play_game (root : Option Node) (inputs : List String) (now : String)
    (scores : List JValue) : PlayOutcome × List JValue × Bool :=
  match root with
  | none => (.noGame, scores, false)
  | some r =>
    match findName inputs with
    | none => (.aborted, scores, false)
    | some (name, rest) =>
      match playLoop rest r 0 [] 0 with
      | none => (.aborted, scores, false)
      | some (t, h, k) =>
        (.completed t h k, scores ++ [mkScoreEntry name t now], true)

/-- The persisted score file, modelled at the JSON level: the file may be
absent, may hold text that `json.load` rejects (`JSONDecodeError`), or may
hold text that parses to a JSON value.  The byte-level JSON codec is the
Python standard library, external to this repository; its documented contract
(parse inverts serialisation on the JSON data model) is assumed. -/
inductive FileContent where
  | missing
  | malformed
  | parsed (v : JValue)

/-- `AdventureGame.load_high_scores`: returns the in-memory value of
`self.high_scores` after the call together with a flag recording whether an
error diagnostic was printed.  Missing file: silently the empty list.
Undecodable file: empty list plus a diagnostic.  Decodable file: whatever
value the file held, with no validation whatsoever.  The function catches all
exceptions, hence never raises; the model is total. -/
def load_high_scores : FileContent → JValue × Bool
  | .missing => (.jarr [], false)
  | .malformed => (.jarr [], true)
  | .parsed v => (v, false)

/-- `AdventureGame.save_high_scores` in the successful case: `json.dump`
overwrites the whole file with the serialised list.  (On a filesystem error
the source prints a message and leaves the file and memory alone; the claims
under verification all condition on the write succeeding.) -/
def save_high_scores (l : List JValue) : FileContent :=
  .parsed (.jarr l)

/-- Python dict key lookup on a JSON object's field list (`entry["k"]` /
`entry.get("k")`); dicts decoded from JSON have unique keys, so first-match
lookup is exact. -/
def lookupField : JValue → String → Option JValue
  | .jobj fs, k => fs.lookup k
  | _, _ => none

/-- The entry filter inside `show_high_scores`: a dict containing a `"score"`
key (`isinstance(entry, dict) and "score" in entry`) is kept as is; a bare
number (`isinstance(entry, (int, float))`, which in Python includes booleans)
is upgraded to a full record with player name and date `"Unknown"`; anything
else is dropped. -/
def normalizeEntry : JValue → Option JValue
  | .jobj fs =>
      if (fs.lookup "score").isSome then some (.jobj fs) else none
  | .jint n => some (.jobj [("player_name", .jstr "Unknown"),
                           ("score", .jint n), ("date", .jstr "Unknown")])
  | .jbool b => some (.jobj [("player_name", .jstr "Unknown"),
                             ("score", .jbool b), ("date", .jstr "Unknown")])
  | _ => none

/-- The normalization step as the claim words it: a record is kept only when
its `score` field is numeric; a bare number is upgraded; everything else is
dropped.  Stated from the spec sentence for comparison with `normalizeEntry`,
which is the code's actual filter. -/
def claimNormalizeEntry : JValue → Option JValue
  | .jobj fs =>
      match fs.lookup "score" with
      | some (.jint _) => some (.jobj fs)
      | some (.jbool _) => some (.jobj fs)
      | _ => none
  | .jint n => some (.jobj [("player_name", .jstr "Unknown"),
                            ("score", .jint n), ("date", .jstr "Unknown")])
  | .jbool b => some (.jobj [("player_name", .jstr "Unknown"),
                             ("score", .jbool b), ("date", .jstr "Unknown")])
  | _ => none

/-- First component of the sort key, `x["score"]` (always present on a kept
entry; the default is unreachable). -/
def scoreVal (e : JValue) : JValue :=
  (lookupField e "score").getD .jnull

/-- Second component of the sort key, `x.get("date", "")`. -/
def dateVal (e : JValue) : JValue :=
  (lookupField e "date").getD (.jstr "")

/-- Three-way comparison of integers by trichotomy. -/
def ordOfLtInt (x y : Int) : Ordering :=
  if x < y then .lt else if x = y then .eq else .gt

/-- Three-way comparison of strings by trichotomy (code-point lexicographic,
as Python compares `str`). -/
def ordOfLtStr (x y : String) : Ordering :=
  if pyStrLt x y then .lt else if x = y then .eq else .gt

/-- Python's `<`-comparison on the values a sort key can hold: numbers
(booleans compare as their integer values) and strings are ordered; any other
pair raises `TypeError`, modelled as `none`. -/
def pyCmpPrim : JValue → JValue → Option Ordering
  | .jint x, .jint y => some (ordOfLtInt x y)
  | .jint x, .jbool y => some (ordOfLtInt x (if y then 1 else 0))
  | .jbool x, .jint y => some (ordOfLtInt (if x then 1 else 0) y)
  | .jbool x, .jbool y => some (ordOfLtInt (if x then 1 else 0) (if y then 1 else 0))
  | .jstr x, .jstr y => some (ordOfLtStr x y)
  | _, _ => none

/-- Python's comparison of the two key tuples `(x["score"], x.get("date",""))`:
first components decide unless equal, then second components; `none` if the
comparison Python would actually perform raises `TypeError`. -/
def cmpEntryKeys (a b : JValue) : Option Ordering :=
  match pyCmpPrim (scoreVal a) (scoreVal b) with
  | some .eq => pyCmpPrim (dateVal a) (dateVal b)
  | o => o

/-- "`a` may precede `b`" in the displayed (descending, stable) order: the key
of `a` is not smaller than the key of `b`.  The `none` default is irrelevant:
`show_high_scores` sorts only when all key pairs are comparable. -/
def keyGe (a b : JValue) : Bool :=
  match cmpEntryKeys a b with
  | some .lt => false
  | _ => true

/-- Stable descending insertion: place `x` before the first element whose key
is not larger, so earlier elements win ties — the semantics of Python's stable
`sorted(..., reverse=True)`. -/
def sortInsert (x : JValue) : List JValue → List JValue
  | [] => [x]
  | y :: ys => if keyGe x y then x :: y :: ys else y :: sortInsert x ys

/-- Model of `sorted(valid_scores, key=lambda x: (x["score"], x.get("date",
"")), reverse=True)` as a stable insertion sort. -/
def pySortedDesc : List JValue → List JValue
  | [] => []
  | x :: xs => sortInsert x (pySortedDesc xs)

/-- Whether every comparison the sort could make succeeds; when some key pair
is incomparable Python's `sorted` raises `TypeError`, which the `except`
branch of `show_high_scores` turns into a wholesale reset. -/
def pairwiseComparable : List JValue → Bool
  | [] => true
  | x :: xs => xs.all (fun y => (cmpEntryKeys x y).isSome) && pairwiseComparable xs

/-- Whether a value survives `"{:<10}".format(v)`-style formatting in the
print loop: strings, ints and booleans do; `None`, lists and dicts raise
`TypeError`. -/
def formatOkVal : JValue → Bool
  | .jint _ => true
  | .jbool _ => true
  | .jstr _ => true
  | _ => false

/-- Whether the print loop of `show_high_scores` can render an entry without
raising: `player_name`, if present, must be a string (it is sliced `[:20]` and
format-aligned), and the `score` and `date` values must be formattable. -/
def printableEntry : JValue → Bool
  | .jobj fs =>
      (match fs.lookup "player_name" with
       | none => true
       | some (.jstr _) => true
       | _ => false) &&
      formatOkVal ((fs.lookup "score").getD .jnull) &&
      (match fs.lookup "date" with
       | none => true
       | some v => formatOkVal v)
  | _ => false

/-- Whether the `try` block of `show_high_scores` runs to completion on the
filtered list: the sort makes only successful comparisons and every kept entry
prints without raising. -/
def displayOkB (entries : List JValue) : Bool :=
  let valid := entries.filterMap normalizeEntry
  pairwiseComparable valid && valid.all printableEntry

/-- Observable outcome of `show_high_scores`: the in-memory list afterwards,
what was written to the file (`none` when `save_high_scores` was not called),
and the sorted list that was printed. -/
structure DisplayResult where
  new_scores : List JValue
  written : Option (List JValue)
  displayed : List JValue

/-- `AdventureGame.show_high_scores`: an empty list returns at once with no
side effect; otherwise the entries are filtered/upgraded, sorted and printed
and the filtered list is saved; if sorting or printing raises, the `except`
branch resets the list to empty and saves the empty list. -/
def show_high_scores (entries : List JValue) : DisplayResult :=
  if entries.isEmpty then ⟨entries, none, []⟩
  else
    let valid := entries.filterMap normalizeEntry
    if displayOkB entries then ⟨valid, some valid, pySortedDesc valid⟩
    else ⟨[], some [], []⟩

/-- A well-formed persisted score record exactly as claimed: a JSON object
with a string `player_name`, an integer `score` and a string `date`. -/
def wellFormedRecordB : JValue → Bool
  | .jobj fs =>
      (match fs.lookup "player_name" with | some (.jstr _) => true | _ => false) &&
      (match fs.lookup "score" with | some (.jint _) => true | _ => false) &&
      (match fs.lookup "date" with | some (.jstr _) => true | _ => false)
  | _ => false

/-- The "expected structure" of the score file: a JSON array of well-formed
score records. -/
def isScoreListJ : JValue → Bool
  | .jarr xs => xs.all wellFormedRecordB
  | _ => false

/-- Integer score of a well-formed display entry. -/
def scoreOf (e : JValue) : Int :=
  match lookupField e "score" with
  | some (.jint n) => n
  | _ => 0

/-- Date string of a display entry, `""` when absent — the same default the
sort key uses. -/
def dateOf (e : JValue) : String :=
  match lookupField e "date" with
  | some (.jstr s) => s
  | _ => ""

/-- The claimed display order: primarily descending score, secondarily
descending lexicographic date string. -/
def descOrder (a b : JValue) : Prop :=
  scoreOf b < scoreOf a ∨ (scoreOf b = scoreOf a ∧ pyStrLe (dateOf b) (dateOf a) = true)

/-- Entries for which the display path is fully well-behaved: integer score,
and optional string date / player name. -/
def wfDisplayEntry : JValue → Bool
  | .jobj fs =>
      (match fs.lookup "score" with | some (.jint _) => true | _ => false) &&
      (match fs.lookup "date" with | none => true | some (.jstr _) => true | _ => false) &&
      (match fs.lookup "player_name" with | none => true | some (.jstr _) => true | _ => false)
  | _ => false

/-- The input string a play choice corresponds to: option 1 ↦ `"1"`,
option 2 ↦ `"2"`. -/
def choiceStr (b : Bool) : String := if b then "1" else "2"

/-- The child a choice selects. -/
def childOf (n : Node) (b : Bool) : Option Node :=
  if b then n.option1 else n.option2

/-- The score delta a choice awards. -/
def deltaOf (n : Node) (b : Bool) : Int :=
  if b then n.option1_score else n.option2_score

/-- The label a choice displays. -/
def labelOf (n : Node) (b : Bool) : String :=
  if b then n.option1_text else n.option2_text

/-- A sequence of choices is a valid root-to-leaf path: each step is taken at
a non-ending node whose chosen child exists, and the walk ends at a leaf. -/
def leadsToLeaf : Node → List Bool → Bool
  | n, [] => isLeaf n
  | n, b :: bs =>
    !isLeaf n &&
      match childOf n b with
      | some c => leadsToLeaf c bs
      | none => false

/-- The score deltas along a choice path, in order. -/
def pathDeltas : Node → List Bool → List Int
  | _, [] => []
  | n, b :: bs =>
    deltaOf n b ::
      match childOf n b with
      | some c => pathDeltas c bs
      | none => []

/-- The (chosen option label, resulting node's text) pairs along a choice
path, in order. -/
def pathPairs : Node → List Bool → List (String × String)
  | _, [] => []
  | n, b :: bs =>
    match childOf n b with
    | some c => (labelOf n b, c.story_text) :: pathPairs c bs
    | none => []

/-- The normalization of the amended claim: a record (dict) containing a
`score` key is kept unchanged whatever the type of the score value; a bare
number is upgraded to a full record with player name and date `"Unknown"`;
every other entry is dropped. -/
def amendedNormalizeEntry : JValue → Option JValue
  | .jobj fs =>
      match fs.lookup "score" with
      | some _ => some (.jobj fs)
      | none => none
  | .jint n => some (.jobj [("player_name", .jstr "Unknown"),
                            ("score", .jint n), ("date", .jstr "Unknown")])
  | .jbool b => some (.jobj [("player_name", .jstr "Unknown"),
                             ("score", .jbool b), ("date", .jstr "Unknown")])
  | _ => none

/-- C10: on an empty in-memory score list, `show_high_scores` only reports and
returns: the list is left empty, nothing is written to the score file, and no
normalization output is produced. -/
theorem show_high_scores_empty_frame :
    show_high_scores [] = ⟨[], none, []⟩ := rfl

/-- C5: for a well-formed score list (each entry a record with a string
`player_name`, integer `score` and string `date`), `save_high_scores` followed
by `load_high_scores` returns exactly the same list, with no diagnostic. -/
theorem save_load_roundtrip (l : List JValue) (_h : l.all wellFormedRecordB = true) :
    load_high_scores (save_high_scores l) = (.jarr l, false) := rfl

/-- Witness for `save_load_roundtrip` at a concrete one-record list. -/
theorem save_load_roundtrip_witness :
    ([mkScoreEntry "alice" 3 "2024-01-01 00:00:00"].all wellFormedRecordB = true) ∧
    load_high_scores (save_high_scores [mkScoreEntry "alice" 3 "2024-01-01 00:00:00"]) =
      (.jarr [mkScoreEntry "alice" 3 "2024-01-01 00:00:00"], false) :=
  ⟨rfl, save_load_roundtrip [mkScoreEntry "alice" 3 "2024-01-01 00:00:00"] rfl⟩

/-- C4 counterexample: a file holding `5` is valid JSON but is not the
expected structure (a list of score records); the claim demands an empty list
plus a diagnostic, yet `load_high_scores` returns the value `5` unvalidated
and prints nothing. -/
theorem load_no_structure_validation_counterexample :
    isScoreListJ (.jint 5) = false ∧
    load_high_scores (.parsed (.jint 5)) = (.jint 5, false) ∧
    load_high_scores (.parsed (.jint 5)) ≠ (.jarr [], true) := by
  refine ⟨rfl, rfl, fun h => ?_⟩
  have h' : ((JValue.jint 5, false) : JValue × Bool) = (.jarr [], true) := h
  simp at h'

/-- C4 amended: a missing file silently yields the empty list; a file whose
content is not decodable as JSON yields the empty list with a diagnostic and
no exception; a file that decodes to any JSON value is loaded as is, with no
structural validation. -/
theorem load_error_policy :
    load_high_scores .missing = (.jarr [], false) ∧
    load_high_scores .malformed = (.jarr [], true) ∧
    ∀ v : JValue, load_high_scores (.parsed v) = (v, false) :=
  ⟨rfl, rfl, fun _ => rfl⟩

/-- The code's filter and the amended claim's normalization agree entrywise. -/
theorem normalizeEntry_eq_amended (e : JValue) :
    normalizeEntry e = amendedNormalizeEntry e := by
  cases e with
  | jnull => rfl
  | jbool b => rfl
  | jint n => rfl
  | jstr s => rfl
  | jarr xs => rfl
  | jobj fs =>
    simp only [normalizeEntry, amendedNormalizeEntry]
    cases h : fs.lookup "score" <;> simp [h]

/-- C3 counterexample: an entry shaped as a record whose `score` field is the
string `"x"` fails both shapes of the claim (it is not a bare number and its
score is not numeric), so the claim says it is dropped; the code keeps it —
only presence of the `"score"` key is checked — and persists it. -/
theorem display_nonnumeric_score_kept_counterexample :
    (show_high_scores [JValue.jobj [("score", JValue.jstr "x")]]).written
      = some [JValue.jobj [("score", JValue.jstr "x")]] ∧
    [JValue.jobj [("score", JValue.jstr "x")]].filterMap claimNormalizeEntry = [] ∧
    (show_high_scores [JValue.jobj [("score", JValue.jstr "x")]]).written
      ≠ some ([JValue.jobj [("score", JValue.jstr "x")]].filterMap claimNormalizeEntry) := by
  refine ⟨rfl, rfl, fun h => ?_⟩
  have h' : (some [JValue.jobj [("score", JValue.jstr "x")]] : Option (List JValue))
      = some [] := h
  simp at h'

/-- C3 amended: `show_high_scores` upgrades bare numbers to full records,
keeps any dict that has a `"score"` key (numeric or not), drops everything
else, and — when the non-empty list displays without an internal error —
persists the normalized list, so that a subsequent load returns it. -/
theorem display_normalizes_amended (entries : List JValue)
    (hne : entries.isEmpty = false) (hok : displayOkB entries = true) :
    (show_high_scores entries).new_scores = entries.filterMap amendedNormalizeEntry ∧
    (show_high_scores entries).written = some (entries.filterMap amendedNormalizeEntry) ∧
    load_high_scores (save_high_scores (entries.filterMap amendedNormalizeEntry)) =
      (.jarr (entries.filterMap amendedNormalizeEntry), false) := by
  have hfun : normalizeEntry = amendedNormalizeEntry := funext normalizeEntry_eq_amended
  refine ⟨?_, ?_, rfl⟩ <;> simp [show_high_scores, hne, hok, hfun]

/-- Witness for `display_normalizes_amended` at a list holding the spec's bare
legacy entry `42`, a dropped `null`, and a kept record. -/
theorem display_normalizes_amended_witness :
    ([JValue.jint 42, JValue.jnull, JValue.jobj [("score", JValue.jint 5)]].isEmpty = false) ∧
    (displayOkB [JValue.jint 42, JValue.jnull, JValue.jobj [("score", JValue.jint 5)]] = true) ∧
    (show_high_scores [JValue.jint 42, JValue.jnull,
        JValue.jobj [("score", JValue.jint 5)]]).written
      = some ([JValue.jint 42, JValue.jnull,
        JValue.jobj [("score", JValue.jint 5)]].filterMap amendedNormalizeEntry) :=
  ⟨rfl, rfl, (display_normalizes_amended
    [JValue.jint 42, JValue.jnull, JValue.jobj [("score", JValue.jint 5)]] rfl rfl).2.1⟩

/-- The play loop with arbitrary accumulator state: along a valid root-to-leaf
choice path the loop succeeds, adds the path's deltas to the running total,
appends the path's pairs to the running history, and prints no invalid-choice
message. -/
theorem playLoop_acc (bs : List Bool) : ∀ (n : Node) (total : Int)
    (hist : List (String × String)) (k : Nat), leadsToLeaf n bs = true →
    playLoop (bs.map choiceStr) n total hist k =
      some (total + (pathDeltas n bs).sum, hist ++ pathPairs n bs, k) := by
  induction bs with
  | nil =>
    intro n total hist k h
    simp only [leadsToLeaf] at h
    simp [playLoop, h, pathDeltas, pathPairs]
  | cons b bs ih =>
    intro n total hist k h
    simp only [leadsToLeaf] at h
    rw [Bool.and_eq_true] at h
    obtain ⟨h1, h2⟩ := h
    have hleaf : isLeaf n = false := by simpa using h1
    cases hc : childOf n b with
    | none => rw [hc] at h2; exact absurd h2 (by simp)
    | some c =>
      rw [hc] at h2
      cases b with
      | true =>
        have hc1 : n.option1 = some c := by simpa [childOf] using hc
        simp only [List.map, choiceStr, if_pos trivial, playLoop, hleaf, if_true]
        simp only [Bool.false_eq_true, if_false, reduceIte, hc1]
        rw [ih c _ _ _ h2]
        simp [pathDeltas, pathPairs, deltaOf, labelOf, childOf, hc1, add_assoc]
      | false =>
        have hc2 : n.option2 = some c := by simpa [childOf] using hc
        simp only [List.map, choiceStr, playLoop, hleaf]
        simp only [Bool.false_eq_true, if_false, reduceIte, hc2]
        rw [ih c _ _ _ h2]
        simp [pathDeltas, pathPairs, deltaOf, labelOf, childOf, hc2, add_assoc]

/-- C1: for every story tree and every sequence of valid 1/2 choices leading
from the root to a leaf, the play loop finishes with total score equal to the
sum of the chosen score deltas along that path in order, and the recorded
history is exactly the ordered list of (chosen option label, resulting node's
text) pairs of that path. -/
theorem play_total_and_history (n : Node) (bs : List Bool)
    (h : leadsToLeaf n bs = true) :
    playLoop (bs.map choiceStr) n 0 [] 0 =
      some ((pathDeltas n bs).sum, pathPairs n bs, 0) := by
  simpa using playLoop_acc bs n 0 [] 0 h

/-- Witness for `play_total_and_history` on a two-level tree, choosing
option 1. -/
theorem play_total_and_history_witness :
    leadsToLeaf (Node.mk "root" "L" "R" 3 (-2) (some (freshNode "lr"))
        (some (freshNode "rr"))) [true] = true ∧
    playLoop ["1"] (Node.mk "root" "L" "R" 3 (-2) (some (freshNode "lr"))
        (some (freshNode "rr"))) 0 [] 0 = some (3, [("L", "lr")], 0) :=
  ⟨rfl, play_total_and_history (Node.mk "root" "L" "R" 3 (-2) (some (freshNode "lr"))
        (some (freshNode "rr"))) [true] rfl⟩

/-- C7: at a non-leaf node, any run of inputs that are neither `"1"` nor
`"2"` leaves the current node, total score and history unchanged — the loop
goes on with the very same state — while printing one invalid-choice message
per rejected input and consuming no turn. -/
theorem invalid_choices_no_effect (bad : List String) : ∀ (rest : List String)
    (n : Node) (total : Int) (hist : List (String × String)) (k : Nat),
    isLeaf n = false → (∀ c ∈ bad, c ≠ "1" ∧ c ≠ "2") →
    playLoop (bad ++ rest) n total hist k = playLoop rest n total hist (k + bad.length) := by
  induction bad with
  | nil => intro rest n total hist k _ _; simp
  | cons c cs ih =>
    intro rest n total hist k h hb
    obtain ⟨⟨hc1, hc2⟩, hbs⟩ := List.forall_mem_cons.mp hb
    simp only [List.cons_append, playLoop, h, Bool.false_eq_true, if_false, hc1, hc2, reduceIte,
      List.append_eq]
    rw [ih rest n total hist (k + 1) h hbs]
    have harith : k + 1 + cs.length = k + (cs.length + 1) := by omega
    simp [harith]

/-- Witness for `invalid_choices_no_effect`: the inputs `"3"`, `"x"`, `""` are
all rejected without effect before a valid `"1"`. -/
theorem invalid_choices_no_effect_witness :
    isLeaf (Node.mk "root" "L" "R" 3 (-2) (some (freshNode "lr"))
        (some (freshNode "rr"))) = false ∧
    (∀ c ∈ (["3", "x", ""] : List String), c ≠ "1" ∧ c ≠ "2") ∧
    playLoop (["3", "x", ""] ++ ["1"]) (Node.mk "root" "L" "R" 3 (-2)
        (some (freshNode "lr")) (some (freshNode "rr"))) 0 [] 0 =
      playLoop ["1"] (Node.mk "root" "L" "R" 3 (-2) (some (freshNode "lr"))
        (some (freshNode "rr"))) 0 [] (0 + 3) :=
  ⟨rfl, by decide, invalid_choices_no_effect ["3", "x", ""] ["1"]
    (Node.mk "root" "L" "R" 3 (-2) (some (freshNode "lr")) (some (freshNode "rr")))
    0 [] 0 rfl (by decide)⟩

/-- C9: playing a tree whose root is a leaf ends immediately: total score 0,
empty history, no invalid-choice message, and a score record with score 0 is
appended to the in-memory list and saved — a valid completed playthrough, not
an error. -/
theorem play_leaf_root (node : Node) (name now : String) (rest : List String)
    (scores : List JValue) (h1 : isLeaf node = true)
    (h2 : (pyStripChars name.data).isEmpty = false) :
    play_game (some node) (name :: rest) now scores =
      (.completed 0 [] 0, scores ++ [mkScoreEntry name 0 now], true) := by
  cases rest <;> simp [play_game, findName, playLoop, h1, h2]

/-- Witness for `play_leaf_root` at a concrete one-node story. -/
theorem play_leaf_root_witness :
    isLeaf (freshNode "the end") = true ∧
    (pyStripChars "bob".data).isEmpty = false ∧
    play_game (some (freshNode "the end")) ["bob"] "2024-01-01 00:00:00" [JValue.jint 7] =
      (.completed 0 [] 0, [JValue.jint 7, mkScoreEntry "bob" 0 "2024-01-01 00:00:00"], true) :=
  ⟨rfl, rfl, play_leaf_root (freshNode "the end") "bob" "2024-01-01 00:00:00" []
    [JValue.jint 7] rfl rfl⟩

/-- C2 counterexample: when the `int()` parse of the option-2 score fails, the
authoring run aborts with option 1 already attached and option 2 still absent,
so the tree it leaves behind has a node with exactly one child — the invariant
does not survive an input-format failure. -/
theorem authoring_one_child_counterexample :
    create_game 10 ["start", "n", "left choice", "5", "left result",
        "right choice", "oops"] =
      (some (Node.mk "start" "left choice" "right choice" 5 0
        (some (Node.mk "left result" "" "" 0 0 none none)) none), [], false) ∧
    invariantB (Node.mk "start" "left choice" "right choice" 5 0
        (some (Node.mk "left result" "" "" 0 0 none none)) none) = false :=
  ⟨rfl, rfl⟩

/-- Any `_create_node` call on a childless node that reports success leaves a
tree in which every node has both children or none. -/
theorem create_node_success_invariant : ∀ (fuel : Nat) (node : Node)
    (inputs : List String) (n' : Node) (rem : List String), isLeaf node = true →
    _create_node fuel node inputs = (n', rem, true) → invariantB n' = true := by
  intro fuel
  induction fuel with
  | zero =>
    intro node inputs n' rem hleaf heq
    simp [_create_node, Prod.ext_iff] at heq
  | succ fuel ih =>
    intro node inputs n' rem hleaf heq
    obtain ⟨st, t1, t2, s1, s2, o1, o2⟩ := node
    obtain ⟨ho1, ho2⟩ : o1 = none ∧ o2 = none := by
      simpa [isLeaf, Node.option1, Node.option2, Option.isNone_iff_eq_none] using hleaf
    subst ho1; subst ho2
    cases inputs with
    | nil => simp [_create_node, Prod.ext_iff] at heq
    | cons ans rest =>
      by_cases hy : pyLower ans = "y"
      · simp only [_create_node, if_pos hy] at heq
        have hn : Node.mk st t1 t2 s1 s2 none none = n' := congrArg Prod.fst heq
        subst hn
        rfl
      · cases rest with
        | nil => simp [_create_node, if_neg hy, Prod.ext_iff] at heq
        | cons o1t rest1 =>
          cases rest1 with
          | nil => simp [_create_node, if_neg hy, Prod.ext_iff] at heq
          | cons sc1 rest2 =>
            cases hp1 : parsePyInt sc1 with
            | none => simp [_create_node, if_neg hy, hp1, Prod.ext_iff] at heq
            | some k1 =>
              cases rest2 with
              | nil => simp [_create_node, if_neg hy, hp1, Prod.ext_iff] at heq
              | cons r1 rest3 =>
                cases rest3 with
                | nil => simp [_create_node, if_neg hy, hp1, Prod.ext_iff] at heq
                | cons o2t rest4 =>
                  cases rest4 with
                  | nil => simp [_create_node, if_neg hy, hp1, Prod.ext_iff] at heq
                  | cons sc2 rest5 =>
                    cases hp2 : parsePyInt sc2 with
                    | none => simp [_create_node, if_neg hy, hp1, hp2, Prod.ext_iff] at heq
                    | some k2 =>
                      cases rest5 with
                      | nil => simp [_create_node, if_neg hy, hp1, hp2, Prod.ext_iff] at heq
                      | cons r2 rest6 =>
                        rcases hrec1 : _create_node fuel (freshNode r1) rest6 with
                          ⟨c1n, rem1, ok1⟩
                        cases ok1 with
                        | false =>
                          simp [_create_node, if_neg hy, hp1, hp2, hrec1, Prod.ext_iff] at heq
                        | true =>
                          rcases hrec2 : _create_node fuel (freshNode r2) rem1 with
                            ⟨c2n, rem2, ok2⟩
                          simp only [_create_node, if_neg hy, hp1, hp2, hrec1, hrec2] at heq
                          have hn : Node.mk st o1t o2t k1 k2 (some c1n) (some c2n) = n' :=
                            congrArg Prod.fst heq
                          have hok : ok2 = true := congrArg (fun p => p.2.2) heq
                          subst hn
                          rw [hok] at hrec2
                          have hinv1 : invariantB c1n = true :=
                            ih (freshNode r1) rest6 c1n rem1 rfl hrec1
                          have hinv2 : invariantB c2n = true :=
                            ih (freshNode r2) rem1 c2n rem2 rfl hrec2
                          simp [invariantB, hinv1, hinv2]

/-- C2 amended: for every tree produced by a *successfully completed*
authoring run, every node has both children present or both absent; a run
aborted by an input-format failure can leave a node with exactly one child
(see the counterexample). -/
theorem create_game_success_invariant (fuel : Nat) (inputs : List String)
    (root : Node) (rem : List String)
    (h : create_game fuel inputs = (some root, rem, true)) :
    invariantB root = true := by
  cases inputs with
  | nil => simp [create_game, Prod.ext_iff] at h
  | cons t rest =>
    rcases hrec : _create_node fuel (freshNode t) rest with ⟨n, rem', ok⟩
    simp only [create_game, hrec] at h
    have hn : n = root := by
      have := congrArg Prod.fst h
      simpa using this
    have hok : ok = true := congrArg (fun p => p.2.2) h
    subst hn
    rw [hok] at hrec
    exact create_node_success_invariant fuel (freshNode t) rest _ rem' rfl hrec

/-- Witness for `create_game_success_invariant` on the smallest complete
session: a root immediately declared an ending. -/
theorem create_game_success_invariant_witness :
    create_game 1 ["start", "y"] = (some (freshNode "start"), [], true) ∧
    invariantB (freshNode "start") = true :=
  ⟨rfl, create_game_success_invariant 1 ["start", "y"] (freshNode "start") [] rfl⟩

/-- C8: at the "is this an ending?" prompt on a childless node, an answer
whose lower-casing is `"y"` halts the recursion and leaves the node childless
(a terminal/ending node), consuming no further input; any other answer goes
on to collect both options — both labels, both parsed scores and both freshly
created children end up on the node. -/
theorem create_node_ending_question (fuel : Nat) (node : Node) (ans : String)
    (rest : List String) (h1 : node.option1 = none) (h2 : node.option2 = none) :
    (pyLower ans = "y" →
      _create_node (fuel + 1) node (ans :: rest) = (node, rest, true)) ∧
    (pyLower ans ≠ "y" →
      ∀ o1t sc1 r1 o2t sc2 r2 rest6 k1 k2,
        rest = o1t :: sc1 :: r1 :: o2t :: sc2 :: r2 :: rest6 →
        parsePyInt sc1 = some k1 → parsePyInt sc2 = some k2 →
        ∃ c1 c2 rem ok, _create_node (fuel + 1) node (ans :: rest) =
          (Node.mk node.story_text o1t o2t k1 k2 (some c1) (some c2), rem, ok)) := by
  obtain ⟨st, t1, t2, s1, s2, o1, o2⟩ := node
  have e1 : o1 = none := by simpa [Node.option1] using h1
  have e2 : o2 = none := by simpa [Node.option2] using h2
  subst e1; subst e2
  constructor
  · intro hy
    simp [_create_node, hy]
  · intro hy o1t sc1 r1 o2t sc2 r2 rest6 k1 k2 hrest hp1 hp2
    subst hrest
    rcases hrec1 : _create_node fuel (freshNode r1) rest6 with ⟨c1n, rem1, ok1⟩
    cases ok1 with
    | true =>
      rcases hrec2 : _create_node fuel (freshNode r2) rem1 with ⟨c2n, rem2, ok2⟩
      exact ⟨c1n, c2n, rem2, ok2,
        by simp [_create_node, hy, hp1, hp2, hrec1, hrec2, Node.story_text]⟩
    | false =>
      exact ⟨c1n, freshNode r2, rem1, false,
        by simp [_create_node, hy, hp1, hp2, hrec1, Node.story_text]⟩

/-- Witness for `create_node_ending_question`: `"Y"` halts with the node left
childless; `"n"` collects both options. -/
theorem create_node_ending_question_witness :
    ((freshNode "s").option1 = none) ∧ ((freshNode "s").option2 = none) ∧
    _create_node 5 (freshNode "s") ["Y", "later"] = (freshNode "s", ["later"], true) ∧
    (∃ c1 c2 rem ok, _create_node 5 (freshNode "s")
        ["n", "L", "1", "lr", "R", "2", "rr"] =
      (Node.mk "s" "L" "R" 1 2 (some c1) (some c2), rem, ok)) := by
  refine ⟨rfl, rfl, ?_, ?_⟩
  · exact (create_node_ending_question 4 (freshNode "s") "Y" ["later"] rfl rfl).1 rfl
  · exact (create_node_ending_question 4 (freshNode "s") "n"
      ["L", "1", "lr", "R", "2", "rr"] rfl rfl).2 (by decide)
      "L" "1" "lr" "R" "2" "rr" [] 1 2 rfl rfl rfl

/-- Lexicographic `<` on character lists is asymmetric. -/
theorem lexLtChars_asymm : ∀ as bs, lexLtChars as bs = true → lexLtChars bs as = false := by
  intro as
  induction as with
  | nil => intro bs h; cases bs <;> simp_all [lexLtChars]
  | cons a as ih =>
    intro bs h
    cases bs with
    | nil => simp [lexLtChars] at h
    | cons b bs =>
      simp only [lexLtChars] at h ⊢
      by_cases hab : a < b
      · simp [hab, lt_asymm hab]
      · by_cases hba : b < a
        · simp [hab, hba] at h
        · simp only [hab, hba, if_false] at h
          simp [hab, hba, ih bs (by simpa using h)]

/-- Lexicographic `<` on character lists is transitive. -/
theorem lexLtChars_trans : ∀ as bs cs, lexLtChars as bs = true →
    lexLtChars bs cs = true → lexLtChars as cs = true := by
  intro as
  induction as with
  | nil =>
    intro bs cs h1 h2
    cases bs with
    | nil => simp [lexLtChars] at h1
    | cons b bs =>
      cases cs with
      | nil => simp [lexLtChars] at h2
      | cons c cs => simp [lexLtChars]
  | cons a as ih =>
    intro bs cs h1 h2
    cases bs with
    | nil => simp [lexLtChars] at h1
    | cons b bs =>
      cases cs with
      | nil => simp [lexLtChars] at h2
      | cons c cs =>
        simp only [lexLtChars] at h1 h2 ⊢
        rcases lt_trichotomy a b with hab | hab | hab
        · rcases lt_trichotomy b c with hbc | hbc | hbc
          · simp [lt_trans hab hbc]
          · subst hbc; simp [hab]
          · rcases lt_trichotomy a c with hac | hac | hac
            · simp [hac]
            · subst hac
              rw [if_neg (lt_irrefl a), if_neg (lt_irrefl a)]
              rw [if_neg (lt_asymm hbc), if_pos hbc] at h2
              exact absurd h2 (by simp)
            · rw [if_neg (lt_asymm hbc), if_pos hbc] at h2
              exact absurd h2 (by simp)
        · subst hab
          rcases lt_trichotomy a c with hac | hac | hac
          · simp [hac]
          · subst hac
            rw [if_neg (lt_irrefl a), if_neg (lt_irrefl a)] at h1 h2 ⊢
            exact ih bs cs (by simpa using h1) (by simpa using h2)
          · rw [if_neg (lt_asymm hac), if_pos hac] at h2
            exact absurd h2 (by simp)
        · rw [if_neg (lt_asymm hab), if_pos hab] at h1
          exact absurd h1 (by simp)

/-- Lexicographic `<` on character lists is trichotomous. -/
theorem lexLtChars_trichot : ∀ as bs,
    lexLtChars as bs = true ∨ lexLtChars bs as = true ∨ as = bs := by
  intro as
  induction as with
  | nil => intro bs; cases bs <;> simp [lexLtChars]
  | cons a as ih =>
    intro bs
    cases bs with
    | nil => simp [lexLtChars]
    | cons b bs =>
      rcases lt_trichotomy a b with hab | hab | hab
      · left; simp [lexLtChars, hab]
      · subst hab
        rcases ih bs with h | h | h
        · left; simp [lexLtChars, h]
        · right; left; simp [lexLtChars, h]
        · subst h; right; right; rfl
      · right; left; simp [lexLtChars, hab]

/-- Python string `<=` is transitive. -/
theorem pyStrLe_trans (x y z : String) (h1 : pyStrLe x y = true)
    (h2 : pyStrLe y z = true) : pyStrLe x z = true := by
  simp only [pyStrLe, pyStrLt, Bool.not_eq_true', Bool.not_eq_eq_eq_not] at h1 h2 ⊢
  by_contra h
  have hzx : lexLtChars z.data x.data = true := by
    cases hv : lexLtChars z.data x.data
    · exact absurd hv h
    · rfl
  rcases lexLtChars_trichot x.data y.data with hxy | hxy | hxy
  · exact absurd (lexLtChars_trans z.data x.data y.data hzx hxy) (by simp [h2])
  · exact absurd hxy (by simp [h1])
  · rw [hxy] at hzx
    exact absurd hzx (by simp [h2])

/-- Python string `<=` is total. -/
theorem pyStrLe_total (x y : String) : pyStrLe x y = true ∨ pyStrLe y x = true := by
  simp only [pyStrLe, pyStrLt, Bool.not_eq_true', Bool.not_eq_eq_eq_not]
  by_cases h : lexLtChars x.data y.data = true
  · left; exact lexLtChars_asymm _ _ h
  · right; cases hv : lexLtChars x.data y.data
    · rfl
    · exact absurd hv h

/-- On a well-formed display entry the first sort-key component is its integer
score. -/
theorem wf_scoreVal (e : JValue) (h : wfDisplayEntry e = true) :
    scoreVal e = .jint (scoreOf e) := by
  cases e with
  | jobj fs =>
    simp only [wfDisplayEntry, Bool.and_eq_true] at h
    obtain ⟨⟨hs, _⟩, _⟩ := h
    cases hv : fs.lookup "score" with
    | none => rw [hv] at hs; simp at hs
    | some v =>
      rw [hv] at hs
      cases v <;> simp_all [scoreVal, scoreOf, lookupField, hv]
  | jnull => simp [wfDisplayEntry] at h
  | jbool b => simp [wfDisplayEntry] at h
  | jint n => simp [wfDisplayEntry] at h
  | jstr s => simp [wfDisplayEntry] at h
  | jarr xs => simp [wfDisplayEntry] at h

/-- On a well-formed display entry the second sort-key component is its date
string (defaulting to `""` when the field is absent). -/
theorem wf_dateVal (e : JValue) (h : wfDisplayEntry e = true) :
    dateVal e = .jstr (dateOf e) := by
  cases e with
  | jobj fs =>
    simp only [wfDisplayEntry, Bool.and_eq_true] at h
    obtain ⟨⟨_, hd⟩, _⟩ := h
    cases hv : fs.lookup "date" with
    | none => simp [dateVal, dateOf, lookupField, hv]
    | some v =>
      rw [hv] at hd
      cases v <;> simp_all [dateVal, dateOf, lookupField, hv]
  | jnull => simp [wfDisplayEntry] at h
  | jbool b => simp [wfDisplayEntry] at h
  | jint n => simp [wfDisplayEntry] at h
  | jstr s => simp [wfDisplayEntry] at h
  | jarr xs => simp [wfDisplayEntry] at h

/-- On well-formed display entries the code's sort predicate is exactly the
claimed order: descending score, ties broken by descending date string. -/
theorem keyGe_iff_wf (a b : JValue) (ha : wfDisplayEntry a = true)
    (hb : wfDisplayEntry b = true) : keyGe a b = true ↔ descOrder a b := by
  rw [keyGe, cmpEntryKeys, wf_scoreVal a ha, wf_scoreVal b hb,
    wf_dateVal a ha, wf_dateVal b hb]
  simp only [pyCmpPrim]
  unfold descOrder
  rcases lt_trichotomy (scoreOf a) (scoreOf b) with h | h | h
  · rw [ordOfLtInt, if_pos h]
    simp only [reduceCtorEq, Bool.false_eq_true, false_iff]
    rintro (h' | ⟨h', -⟩) <;> omega
  · rw [ordOfLtInt, if_neg (by omega), if_pos h]
    by_cases hd : pyStrLt (dateOf a) (dateOf b) = true
    · rw [ordOfLtStr, if_pos hd]
      simp only [reduceCtorEq, Bool.false_eq_true, false_iff]
      rintro (h' | ⟨-, h'⟩)
      · omega
      · rw [pyStrLe, hd] at h'
        simp at h'
    · rw [ordOfLtStr, if_neg hd]
      have hle : pyStrLe (dateOf b) (dateOf a) = true := by
        rw [pyStrLe]
        cases hv : pyStrLt (dateOf a) (dateOf b)
        · rfl
        · exact absurd hv hd
      by_cases he : dateOf a = dateOf b
      · rw [if_pos he]
        simp only [true_iff]
        right
        exact ⟨by omega, hle⟩
      · rw [if_neg he]
        simp only [true_iff]
        right
        exact ⟨by omega, hle⟩
  · rw [ordOfLtInt, if_neg (by omega), if_neg (by omega)]
    simp only [true_iff]
    left
    exact h

/-- The claimed display order is total. -/
theorem descOrder_total (a b : JValue) : descOrder a b ∨ descOrder b a := by
  unfold descOrder
  rcases lt_trichotomy (scoreOf a) (scoreOf b) with h | h | h
  · right; left; exact h
  · rcases pyStrLe_total (dateOf b) (dateOf a) with hd | hd
    · left; right; exact ⟨by omega, hd⟩
    · right; right; exact ⟨by omega, hd⟩
  · left; left; exact h

/-- The claimed display order is transitive. -/
theorem descOrder_trans (a b c : JValue) (h1 : descOrder a b) (h2 : descOrder b c) :
    descOrder a c := by
  unfold descOrder at h1 h2 ⊢
  rcases h1 with h1 | ⟨h1, h1d⟩
  · rcases h2 with h2 | ⟨h2, -⟩
    · left; omega
    · left; omega
  · rcases h2 with h2 | ⟨h2, h2d⟩
    · left; omega
    · right; exact ⟨by omega, pyStrLe_trans _ _ _ h2d h1d⟩

/-- Inserting into the sorted prefix is a permutation of consing. -/
theorem sortInsert_perm (x : JValue) : ∀ l : List JValue, (sortInsert x l).Perm (x :: l) := by
  intro l
  induction l with
  | nil => simp [sortInsert]
  | cons y ys ih =>
    by_cases h : keyGe x y = true
    · rw [sortInsert, if_pos h]
    · rw [sortInsert, if_neg h]
      exact (ih.cons y).trans (List.Perm.swap x y ys)

/-- The modelled `sorted` call is a permutation of its input. -/
theorem pySortedDesc_perm : ∀ l : List JValue, (pySortedDesc l).Perm l := by
  intro l
  induction l with
  | nil => simp [pySortedDesc]
  | cons x xs ih => exact (sortInsert_perm x (pySortedDesc xs)).trans (ih.cons x)

/-- Inserting a well-formed entry into a well-formed sorted list keeps it
sorted in the claimed descending order. -/
theorem sortInsert_pairwise (x : JValue) : ∀ l : List JValue,
    wfDisplayEntry x = true → (∀ y ∈ l, wfDisplayEntry y = true) →
    l.Pairwise descOrder → (sortInsert x l).Pairwise descOrder := by
  intro l
  induction l with
  | nil => intro _ _ _; simp [sortInsert]
  | cons y ys ih =>
    intro hx hl hp
    have hy : wfDisplayEntry y = true := hl y (by simp)
    have hys : ∀ z ∈ ys, wfDisplayEntry z = true := fun z hz => hl z (by simp [hz])
    rcases List.pairwise_cons.mp hp with ⟨hyall, hptail⟩
    by_cases h : keyGe x y = true
    · rw [sortInsert, if_pos h]
      have hxy : descOrder x y := (keyGe_iff_wf x y hx hy).mp h
      refine List.pairwise_cons.mpr ⟨?_, hp⟩
      intro z hz
      rcases List.mem_cons.mp hz with rfl | hz
      · exact hxy
      · exact descOrder_trans x y z hxy (hyall z hz)
    · rw [sortInsert, if_neg h]
      have hyx : descOrder y x := by
        rcases descOrder_total x y with hd | hd
        · exact absurd ((keyGe_iff_wf x y hx hy).mpr hd) h
        · exact hd
      refine List.pairwise_cons.mpr ⟨?_, ih hx hys hptail⟩
      intro z hz
      have hz' : z ∈ x :: ys := (sortInsert_perm x ys).mem_iff.mp hz
      rcases List.mem_cons.mp hz' with rfl | hz'
      · exact hyx
      · exact hyall z hz'

/-- The modelled `sorted` call on well-formed entries produces a list sorted
in the claimed descending order. -/
theorem pySortedDesc_pairwise : ∀ l : List JValue,
    (∀ y ∈ l, wfDisplayEntry y = true) → (pySortedDesc l).Pairwise descOrder := by
  intro l
  induction l with
  | nil => intro _; simp [pySortedDesc]
  | cons x xs ih =>
    intro hl
    have hx : wfDisplayEntry x = true := hl x (by simp)
    have hxs : ∀ z ∈ xs, wfDisplayEntry z = true := fun z hz => hl z (by simp [hz])
    refine sortInsert_pairwise x (pySortedDesc xs) hx ?_ (ih hxs)
    intro z hz
    exact hxs z ((pySortedDesc_perm xs).mem_iff.mp hz)

/-- A well-formed display entry passes the code's filter unchanged. -/
theorem normalizeEntry_wf_keep (e : JValue) (h : wfDisplayEntry e = true) :
    normalizeEntry e = some e := by
  cases e with
  | jobj fs =>
    simp only [wfDisplayEntry, Bool.and_eq_true] at h
    obtain ⟨⟨hs, _⟩, _⟩ := h
    cases hv : fs.lookup "score" with
    | none => rw [hv] at hs; simp at hs
    | some v => simp [normalizeEntry, hv]
  | jnull => simp [wfDisplayEntry] at h
  | jbool b => simp [wfDisplayEntry] at h
  | jint n => simp [wfDisplayEntry] at h
  | jstr s => simp [wfDisplayEntry] at h
  | jarr xs => simp [wfDisplayEntry] at h

/-- On a list of well-formed entries the code's filter is the identity. -/
theorem filterMap_normalize_of_wf : ∀ l : List JValue,
    (∀ e ∈ l, wfDisplayEntry e = true) → l.filterMap normalizeEntry = l := by
  intro l
  induction l with
  | nil => intro _; rfl
  | cons e es ih =>
    intro h
    rw [List.filterMap_cons, normalizeEntry_wf_keep e (h e (by simp))]
    rw [ih fun z hz => h z (by simp [hz])]

/-- A well-formed display entry prints without raising. -/
theorem printable_of_wf (e : JValue) (h : wfDisplayEntry e = true) :
    printableEntry e = true := by
  cases e with
  | jobj fs =>
    simp only [wfDisplayEntry, Bool.and_eq_true] at h
    obtain ⟨⟨hs, hd⟩, hp⟩ := h
    simp only [printableEntry, Bool.and_eq_true]
    refine ⟨⟨?_, ?_⟩, ?_⟩
    · cases hv : fs.lookup "player_name" with
      | none => simp
      | some v => rw [hv] at hp; cases v <;> simp_all
    · cases hv : fs.lookup "score" with
      | none => rw [hv] at hs; simp at hs
      | some v => rw [hv] at hs; cases v <;> simp_all [formatOkVal]
    · cases hv : fs.lookup "date" with
      | none => simp
      | some v => rw [hv] at hd; cases v <;> simp_all [formatOkVal]
  | jnull => simp [wfDisplayEntry] at h
  | jbool b => simp [wfDisplayEntry] at h
  | jint n => simp [wfDisplayEntry] at h
  | jstr s => simp [wfDisplayEntry] at h
  | jarr xs => simp [wfDisplayEntry] at h

/-- The sort key comparison succeeds between well-formed entries. -/
theorem comparable_of_wf (a b : JValue) (ha : wfDisplayEntry a = true)
    (hb : wfDisplayEntry b = true) : (cmpEntryKeys a b).isSome = true := by
  rw [cmpEntryKeys, wf_scoreVal a ha, wf_scoreVal b hb, wf_dateVal a ha, wf_dateVal b hb]
  simp only [pyCmpPrim]
  cases ordOfLtInt (scoreOf a) (scoreOf b) <;> simp

/-- Every comparison the sort makes on a list of well-formed entries
succeeds. -/
theorem pairwiseComparable_of_wf : ∀ l : List JValue,
    (∀ e ∈ l, wfDisplayEntry e = true) → pairwiseComparable l = true := by
  intro l
  induction l with
  | nil => intro _; rfl
  | cons e es ih =>
    intro h
    rw [pairwiseComparable, Bool.and_eq_true]
    refine ⟨List.all_eq_true.mpr fun z hz => ?_, ih fun z hz => h z (by simp [hz])⟩
    exact comparable_of_wf e z (h e (by simp)) (h z (by simp [hz]))

/-- On a non-empty list of well-formed entries the display path completes. -/
theorem displayOk_of_wf (entries : List JValue)
    (h : ∀ e ∈ entries, wfDisplayEntry e = true) : displayOkB entries = true := by
  rw [displayOkB]
  simp only [filterMap_normalize_of_wf entries h, Bool.and_eq_true]
  exact ⟨pairwiseComparable_of_wf entries h,
    List.all_eq_true.mpr fun z hz => printable_of_wf z (h z hz)⟩

/-- C6: on a normalized, well-formed score list, the list `show_high_scores`
displays is a permutation of the entries sorted primarily by descending score
and secondarily by descending lexicographic date string. -/
theorem display_sort_order (entries : List JValue) (hne : entries.isEmpty = false)
    (hwf : entries.all wfDisplayEntry = true) :
    (show_high_scores entries).displayed.Pairwise descOrder ∧
    (show_high_scores entries).displayed.Perm entries := by
  have hmem : ∀ e ∈ entries, wfDisplayEntry e = true := List.all_eq_true.mp hwf
  have hok : displayOkB entries = true := displayOk_of_wf entries hmem
  have hshow : (show_high_scores entries).displayed = pySortedDesc entries := by
    simp [show_high_scores, hne, hok, filterMap_normalize_of_wf entries hmem]
  rw [hshow]
  exact ⟨pySortedDesc_pairwise entries hmem, pySortedDesc_perm entries⟩

/-- Witness for `display_sort_order` on the claim's example: scores
`[10, 30, 30]`; both 30s come first and the tied records order by the later
date string first. -/
theorem display_sort_order_witness :
    (([JValue.jobj [("player_name", JValue.jstr "a"), ("score", JValue.jint 10),
        ("date", JValue.jstr "2024-01-01 00:00:00")],
      JValue.jobj [("player_name", JValue.jstr "b"), ("score", JValue.jint 30),
        ("date", JValue.jstr "2024-02-01 00:00:00")],
      JValue.jobj [("player_name", JValue.jstr "c"), ("score", JValue.jint 30),
        ("date", JValue.jstr "2024-01-15 00:00:00")]] : List JValue).isEmpty = false) ∧
    ([JValue.jobj [("player_name", JValue.jstr "a"), ("score", JValue.jint 10),
        ("date", JValue.jstr "2024-01-01 00:00:00")],
      JValue.jobj [("player_name", JValue.jstr "b"), ("score", JValue.jint 30),
        ("date", JValue.jstr "2024-02-01 00:00:00")],
      JValue.jobj [("player_name", JValue.jstr "c"), ("score", JValue.jint 30),
        ("date", JValue.jstr "2024-01-15 00:00:00")]].all wfDisplayEntry = true) ∧
    (show_high_scores
      [JValue.jobj [("player_name", JValue.jstr "a"), ("score", JValue.jint 10),
        ("date", JValue.jstr "2024-01-01 00:00:00")],
      JValue.jobj [("player_name", JValue.jstr "b"), ("score", JValue.jint 30),
        ("date", JValue.jstr "2024-02-01 00:00:00")],
      JValue.jobj [("player_name", JValue.jstr "c"), ("score", JValue.jint 30),
        ("date", JValue.jstr "2024-01-15 00:00:00")]]).displayed =
      [JValue.jobj [("player_name", JValue.jstr "b"), ("score", JValue.jint 30),
        ("date", JValue.jstr "2024-02-01 00:00:00")],
      JValue.jobj [("player_name", JValue.jstr "c"), ("score", JValue.jint 30),
        ("date", JValue.jstr "2024-01-15 00:00:00")],
      JValue.jobj [("player_name", JValue.jstr "a"), ("score", JValue.jint 10),
        ("date", JValue.jstr "2024-01-01 00:00:00")]] ∧
    (show_high_scores
      [JValue.jobj [("player_name", JValue.jstr "a"), ("score", JValue.jint 10),
        ("date", JValue.jstr "2024-01-01 00:00:00")],
      JValue.jobj [("player_name", JValue.jstr "b"), ("score", JValue.jint 30),
        ("date", JValue.jstr "2024-02-01 00:00:00")],
      JValue.jobj [("player_name", JValue.jstr "c"), ("score", JValue.jint 30),
        ("date", JValue.jstr "2024-01-15 00:00:00")]]).displayed.Pairwise descOrder :=
  ⟨rfl, rfl, rfl,
    (display_sort_order
      [JValue.jobj [("player_name", JValue.jstr "a"), ("score", JValue.jint 10),
        ("date", JValue.jstr "2024-01-01 00:00:00")],
      JValue.jobj [("player_name", JValue.jstr "b"), ("score", JValue.jint 30),
        ("date", JValue.jstr "2024-02-01 00:00:00")],
      JValue.jobj [("player_name", JValue.jstr "c"), ("score", JValue.jint 30),
        ("date", JValue.jstr "2024-01-15 00:00:00")]] rfl rfl).1⟩
